import Mathlib

/-
  Verification of the Swagit video re-scraper (scripts/scrape-swagit.py).

  The Python source is shallowly embedded below: pure helpers become Lean
  functions, the PostgreSQL videos table becomes a list of rows, the
  ON CONFLICT upsert becomes an explicit merge, HTTP and HTML parsing are
  abstracted as oracles supplying exactly the observations the code consumes
  (status codes, extracted records, presence of a Next link).  Dates are
  abstracted as natural numbers (order and equality are all the code uses);
  the Python date.min sort default becomes 0.
-/

/-- Raw structured payload stored in the data column (built in
extract_videos_from_html): video_id, truncated title, optional date string,
duration. -/
structure RawData where
  video_id : Nat
  title : String
  date : Option String
  duration : String
deriving Repr, DecidableEq

/-- The VideoRecord dataclass.  Fields typed Optional[...] in Python become
Option; duration is a plain str in the dataclass and hence a plain String
here. -/
structure VideoRecord where
  city_slug : String
  video_id : Nat
  title : String
  video_date : Option Nat
  duration : String
  video_uuid : Option String := none
  hls_url : Option String := none
  download_url : Option String := none
  agenda_url : Option String := none
  data : RawData
deriving Repr, DecidableEq

/-- One row of the videos table.  Every non-key column is nullable at the SQL
level except title and data, which are always written from non-null Python
strings / json. -/
structure VideoRow where
  city_slug : String
  video_id : Nat
  title : String
  video_date : Option Nat
  duration : Option String
  video_uuid : Option String
  hls_url : Option String
  download_url : Option String
  agenda_url : Option String
  data : RawData
deriving Repr, DecidableEq

/-- The tuple of SQL parameters bound by upsert_videos for one record.  A
psycopg2 parameter is NULL exactly when the Python value is None, so fields
that can be None are Option here. -/
structure InsertValues where
  city_slug : String
  video_id : Nat
  title : String
  video_date : Option Nat
  duration : Option String
  video_uuid : Option String
  hls_url : Option String
  download_url : Option String
  agenda_url : Option String
  data : RawData
deriving Repr, DecidableEq

/-- SQL COALESCE on two nullable values. -/
def coalesce {α : Type} (a b : Option α) : Option α :=
  match a with
  | some x => some x
  | none => b

theorem coalesce_none {α : Type} (b : Option α) : coalesce none b = b := rfl

theorem coalesce_some {α : Type} (x : α) (b : Option α) :
    coalesce (some x) b = some x := rfl

theorem coalesce_self {α : Type} (a : Option α) : coalesce a a = a := by
  cases a <;> rfl

theorem coalesce_absorb {α : Type} (a b : Option α) :
    coalesce a (coalesce a b) = coalesce a b := by
  cases a <;> rfl

/-- Parameter binding in upsert_videos: rec.duration is a Python str (never
None), so its SQL parameter is never NULL; the Optional fields pass through. -/
def recToValues (r : VideoRecord) : InsertValues :=
  { city_slug := r.city_slug
    video_id := r.video_id
    title := r.title
    video_date := r.video_date
    duration := some r.duration
    video_uuid := r.video_uuid
    hls_url := r.hls_url
    download_url := r.download_url
    agenda_url := r.agenda_url
    data := r.data }

/-- The INSERT arm of the upsert: a fresh row takes every column from the
bound values. -/
def insertRow (inc : InsertValues) : VideoRow :=
  { city_slug := inc.city_slug
    video_id := inc.video_id
    title := inc.title
    video_date := inc.video_date
    duration := inc.duration
    video_uuid := inc.video_uuid
    hls_url := inc.hls_url
    download_url := inc.download_url
    agenda_url := inc.agenda_url
    data := inc.data }

/-- The ON CONFLICT DO UPDATE arm: title and data are overwritten
unconditionally, every other column goes through COALESCE(EXCLUDED.col,
videos.col); the key columns are untouched. -/
def mergeRow (old : VideoRow) (inc : InsertValues) : VideoRow :=
  { city_slug := old.city_slug
    video_id := old.video_id
    title := inc.title
    video_date := coalesce inc.video_date old.video_date
    duration := coalesce inc.duration old.duration
    video_uuid := coalesce inc.video_uuid old.video_uuid
    hls_url := coalesce inc.hls_url old.hls_url
    download_url := coalesce inc.download_url old.download_url
    agenda_url := coalesce inc.agenda_url old.agenda_url
    data := inc.data }

/-- The unique-key test on (city_slug, video_id). -/
def keyMatches (slug : String) (vid : Nat) (row : VideoRow) : Bool :=
  row.city_slug == slug && row.video_id == vid

/-- Accumulated state of upsert_videos: table contents plus the new/updated
counters derived from the RETURNING (xmax = 0) classification. -/
structure UpsertState where
  table : List VideoRow
  newCount : Nat
  updatedCount : Nat
deriving Repr, DecidableEq

/-- One iteration of the loop in upsert_videos: a single INSERT ... ON
CONFLICT for one record.  The row is inserted when the key is absent and is
classified new; otherwise the existing row with that key is merged and the
record is classified updated. -/
def upsertStep (st : UpsertState) (r : VideoRecord) : UpsertState :=
  if st.table.any (keyMatches r.city_slug r.video_id) then
    { table := st.table.map (fun row =>
        if keyMatches r.city_slug r.video_id row then mergeRow row (recToValues r) else row)
      newCount := st.newCount
      updatedCount := st.updatedCount + 1 }
  else
    { table := st.table ++ [insertRow (recToValues r)]
      newCount := st.newCount + 1
      updatedCount := st.updatedCount }

/-- upsert_videos: fold the per-record upsert over the record list, starting
from the current table with both counters at zero. -/
def upsert_videos (t : List VideoRow) (recs : List VideoRecord) : UpsertState :=
  recs.foldl upsertStep { table := t, newCount := 0, updatedCount := 0 }

/-- Claim C2: for a stored row and an incoming record with the same
(city_slug, video_id) key, the upsert overwrites title and the raw payload
unconditionally and applies the null-preserving rule to every other field
(stored value kept when the incoming value is null, replaced when non-null);
when no row with the key exists, a new row holding the incoming values is
appended. -/
theorem upsert_merge_semantics (st : UpsertState) (r : VideoRecord) :
    (st.table.any (keyMatches r.city_slug r.video_id) = false →
      (upsertStep st r).table = st.table ++ [insertRow (recToValues r)]) ∧
    (st.table.any (keyMatches r.city_slug r.video_id) = true →
      (upsertStep st r).table = st.table.map (fun row =>
        if keyMatches r.city_slug r.video_id row then mergeRow row (recToValues r) else row)) ∧
    (∀ (old : VideoRow) (inc : InsertValues),
      (mergeRow old inc).title = inc.title ∧
      (mergeRow old inc).data = inc.data ∧
      (mergeRow old inc).city_slug = old.city_slug ∧
      (mergeRow old inc).video_id = old.video_id ∧
      (inc.video_date = none → (mergeRow old inc).video_date = old.video_date) ∧
      (∀ v, inc.video_date = some v → (mergeRow old inc).video_date = some v) ∧
      (inc.duration = none → (mergeRow old inc).duration = old.duration) ∧
      (∀ v, inc.duration = some v → (mergeRow old inc).duration = some v) ∧
      (inc.video_uuid = none → (mergeRow old inc).video_uuid = old.video_uuid) ∧
      (∀ v, inc.video_uuid = some v → (mergeRow old inc).video_uuid = some v) ∧
      (inc.hls_url = none → (mergeRow old inc).hls_url = old.hls_url) ∧
      (∀ v, inc.hls_url = some v → (mergeRow old inc).hls_url = some v) ∧
      (inc.download_url = none → (mergeRow old inc).download_url = old.download_url) ∧
      (∀ v, inc.download_url = some v → (mergeRow old inc).download_url = some v) ∧
      (inc.agenda_url = none → (mergeRow old inc).agenda_url = old.agenda_url) ∧
      (∀ v, inc.agenda_url = some v → (mergeRow old inc).agenda_url = some v)) := by
  refine ⟨?_, ?_, ?_⟩
  · intro h
    simp [upsertStep, h]
  · intro h
    simp [upsertStep, h]
  · intro old inc
    refine ⟨rfl, rfl, rfl, rfl, ?_, ?_, ?_, ?_, ?_, ?_, ?_, ?_, ?_, ?_, ?_, ?_⟩ <;>
      first
        | (intro h; simp [mergeRow, h, coalesce])
        | (intro v h; simp [mergeRow, h, coalesce])

/-- Concrete row used by witnesses: a stored video with known date, duration,
uuid and download url. -/
def rowW : VideoRow :=
  { city_slug := "austintx", video_id := 1, title := "old title",
    video_date := some 500, duration := some "1:00:00",
    video_uuid := some "u-1", hls_url := none,
    download_url := some "https://dl", agenda_url := none,
    data := ⟨1, "old title", none, "1:00:00"⟩ }

/-- Concrete incoming record used by witnesses: same key as rowW, null date,
empty duration. -/
def recW : VideoRecord :=
  { city_slug := "austintx", video_id := 1, title := "new title",
    video_date := none, duration := "",
    video_uuid := none, hls_url := none, download_url := none,
    agenda_url := none, data := ⟨1, "new title", none, ""⟩ }

/-- Concrete one-row upsert state used by witnesses. -/
def stW : UpsertState := { table := [rowW], newCount := 0, updatedCount := 0 }

theorem upsert_merge_semantics_witness :
    (stW.table.any (keyMatches recW.city_slug recW.video_id) = true ∧
      (upsertStep stW recW).table = stW.table.map (fun row =>
        if keyMatches recW.city_slug recW.video_id row then
          mergeRow row (recToValues recW) else row)) ∧
    ((recToValues recW).video_date = none ∧
      (mergeRow rowW (recToValues recW)).video_date = rowW.video_date) :=
  ⟨⟨by decide, (upsert_merge_semantics stW recW).2.1 (by decide)⟩,
   ⟨by decide,
    ((upsert_merge_semantics stW recW).2.2 rowW (recToValues recW)).2.2.2.2.1 (by decide)⟩⟩

/-- Sequential effect of a record list on one stored row: each record whose
key matches the row merges into it, in list order.  This is what a full pass
of upsert_videos does to a row that is present throughout the pass. -/
def rowApply (w : VideoRow) (recs : List VideoRecord) : VideoRow :=
  recs.foldl (fun s r =>
    if keyMatches r.city_slug r.video_id s then mergeRow s (recToValues r) else s) w

theorem rowApply_nil (w : VideoRow) : rowApply w [] = w := rfl

theorem rowApply_cons (w : VideoRow) (r : VideoRecord) (recs : List VideoRecord) :
    rowApply w (r :: recs) =
      rowApply (if keyMatches r.city_slug r.video_id w then
        mergeRow w (recToValues r) else w) recs := rfl

theorem rowApply_append (w : VideoRow) (l1 l2 : List VideoRecord) :
    rowApply w (l1 ++ l2) = rowApply (rowApply w l1) l2 := by
  simp [rowApply, List.foldl_append]

theorem mergeRow_city_slug (s : VideoRow) (i : InsertValues) :
    (mergeRow s i).city_slug = s.city_slug := rfl

theorem mergeRow_video_id (s : VideoRow) (i : InsertValues) :
    (mergeRow s i).video_id = s.video_id := rfl

theorem keyMatches_mergeRow (a : String) (b : Nat) (s : VideoRow) (i : InsertValues) :
    keyMatches a b (mergeRow s i) = keyMatches a b s := rfl

theorem rowApply_city_slug (recs : List VideoRecord) :
    ∀ w : VideoRow, (rowApply w recs).city_slug = w.city_slug := by
  induction recs with
  | nil => intro w; rfl
  | cons r rs ih =>
    intro w
    rw [rowApply_cons]
    by_cases h : keyMatches r.city_slug r.video_id w = true
    · rw [if_pos h, ih]; rfl
    · rw [if_neg h, ih]

theorem rowApply_video_id (recs : List VideoRecord) :
    ∀ w : VideoRow, (rowApply w recs).video_id = w.video_id := by
  induction recs with
  | nil => intro w; rfl
  | cons r rs ih =>
    intro w
    rw [rowApply_cons]
    by_cases h : keyMatches r.city_slug r.video_id w = true
    · rw [if_pos h, ih]; rfl
    · rw [if_neg h, ih]

theorem rowApply_congr (recs : List VideoRecord) :
    ∀ v w : VideoRow, v.city_slug = w.city_slug → v.video_id = w.video_id →
      ((v.video_date = w.video_date →
          (rowApply v recs).video_date = (rowApply w recs).video_date) ∧
       (v.duration = w.duration →
          (rowApply v recs).duration = (rowApply w recs).duration) ∧
       (v.video_uuid = w.video_uuid →
          (rowApply v recs).video_uuid = (rowApply w recs).video_uuid) ∧
       (v.hls_url = w.hls_url →
          (rowApply v recs).hls_url = (rowApply w recs).hls_url) ∧
       (v.download_url = w.download_url →
          (rowApply v recs).download_url = (rowApply w recs).download_url) ∧
       (v.agenda_url = w.agenda_url →
          (rowApply v recs).agenda_url = (rowApply w recs).agenda_url)) := by
  induction recs with
  | nil =>
    intro v w hs hv
    exact ⟨id, id, id, id, id, id⟩
  | cons r rs ih =>
    intro v w hs hv
    have hk : keyMatches r.city_slug r.video_id v = keyMatches r.city_slug r.video_id w := by
      simp [keyMatches, hs, hv]
    rw [rowApply_cons, rowApply_cons, ← hk]
    by_cases h : keyMatches r.city_slug r.video_id v = true
    · rw [if_pos h, if_pos h]
      have key1 : (mergeRow v (recToValues r)).city_slug = (mergeRow w (recToValues r)).city_slug := hs
      have key2 : (mergeRow v (recToValues r)).video_id = (mergeRow w (recToValues r)).video_id := hv
      have := ih (mergeRow v (recToValues r)) (mergeRow w (recToValues r)) key1 key2
      refine ⟨fun hf => this.1 ?_, fun hf => this.2.1 ?_, fun hf => this.2.2.1 ?_,
        fun hf => this.2.2.2.1 ?_, fun hf => this.2.2.2.2.1 ?_,
        fun hf => this.2.2.2.2.2 ?_⟩ <;> simp [mergeRow, hf]
    · rw [if_neg h, if_neg h]
      exact ih v w hs hv

theorem rowApply_no_match (recs : List VideoRecord) :
    ∀ v : VideoRow, (∀ r ∈ recs, keyMatches r.city_slug r.video_id v = false) →
      rowApply v recs = v := by
  induction recs with
  | nil => intro v _; rfl
  | cons r rs ih =>
    intro v h
    rw [rowApply_cons]
    have hr := h r (List.mem_cons_self r rs)
    rw [if_neg (by simp [hr])]
    exact ih v (fun r2 hr2 => h r2 (List.mem_cons_of_mem r hr2))

theorem mergeRow_insertRow (i : InsertValues) :
    mergeRow (insertRow i) i = insertRow i := by
  simp [mergeRow, insertRow, coalesce_self]

theorem coalesce_congr {α : Type} (a x y : Option α) (h : a = none → x = y) :
    coalesce a x = coalesce a y := by
  cases a with
  | none => rw [coalesce_none, coalesce_none]; exact h rfl
  | some v => rfl

theorem VideoRow.eqOfFields {a b : VideoRow}
    (h1 : a.city_slug = b.city_slug) (h2 : a.video_id = b.video_id)
    (h3 : a.title = b.title) (h4 : a.video_date = b.video_date)
    (h5 : a.duration = b.duration) (h6 : a.video_uuid = b.video_uuid)
    (h7 : a.hls_url = b.hls_url) (h8 : a.download_url = b.download_url)
    (h9 : a.agenda_url = b.agenda_url) (h10 : a.data = b.data) : a = b := by
  cases a; cases b; simp_all

theorem merge_rowApply_merge (done : List VideoRecord) (w : VideoRow)
    (i : InsertValues) (hst : rowApply w done = w) :
    mergeRow (rowApply (mergeRow w i) done) i = mergeRow w i := by
  have congrAll := rowApply_congr done (mergeRow w i) w rfl rfl
  apply VideoRow.eqOfFields
  · show (rowApply (mergeRow w i) done).city_slug = w.city_slug
    rw [rowApply_city_slug]; exact rfl
  · show (rowApply (mergeRow w i) done).video_id = w.video_id
    rw [rowApply_video_id]; exact rfl
  · rfl
  · show coalesce i.video_date (rowApply (mergeRow w i) done).video_date =
      coalesce i.video_date w.video_date
    apply coalesce_congr
    intro hvd
    have hpre : (mergeRow w i).video_date = w.video_date := by
      show coalesce i.video_date w.video_date = w.video_date
      rw [hvd, coalesce_none]
    have hres := congrAll.1 hpre
    rw [hst] at hres
    exact hres
  · show coalesce i.duration (rowApply (mergeRow w i) done).duration =
      coalesce i.duration w.duration
    apply coalesce_congr
    intro hvd
    have hpre : (mergeRow w i).duration = w.duration := by
      show coalesce i.duration w.duration = w.duration
      rw [hvd, coalesce_none]
    have hres := congrAll.2.1 hpre
    rw [hst] at hres
    exact hres
  · show coalesce i.video_uuid (rowApply (mergeRow w i) done).video_uuid =
      coalesce i.video_uuid w.video_uuid
    apply coalesce_congr
    intro hvd
    have hpre : (mergeRow w i).video_uuid = w.video_uuid := by
      show coalesce i.video_uuid w.video_uuid = w.video_uuid
      rw [hvd, coalesce_none]
    have hres := congrAll.2.2.1 hpre
    rw [hst] at hres
    exact hres
  · show coalesce i.hls_url (rowApply (mergeRow w i) done).hls_url =
      coalesce i.hls_url w.hls_url
    apply coalesce_congr
    intro hvd
    have hpre : (mergeRow w i).hls_url = w.hls_url := by
      show coalesce i.hls_url w.hls_url = w.hls_url
      rw [hvd, coalesce_none]
    have hres := congrAll.2.2.2.1 hpre
    rw [hst] at hres
    exact hres
  · show coalesce i.download_url (rowApply (mergeRow w i) done).download_url =
      coalesce i.download_url w.download_url
    apply coalesce_congr
    intro hvd
    have hpre : (mergeRow w i).download_url = w.download_url := by
      show coalesce i.download_url w.download_url = w.download_url
      rw [hvd, coalesce_none]
    have hres := congrAll.2.2.2.2.1 hpre
    rw [hst] at hres
    exact hres
  · show coalesce i.agenda_url (rowApply (mergeRow w i) done).agenda_url =
      coalesce i.agenda_url w.agenda_url
    apply coalesce_congr
    intro hvd
    have hpre : (mergeRow w i).agenda_url = w.agenda_url := by
      show coalesce i.agenda_url w.agenda_url = w.agenda_url
      rw [hvd, coalesce_none]
    have hres := congrAll.2.2.2.2.2 hpre
    rw [hst] at hres
    exact hres
  · rfl

/-- A record's (city_slug, video_id) key is present in a table. -/
def HasKey (t : List VideoRow) (r : VideoRecord) : Prop :=
  t.any (keyMatches r.city_slug r.video_id) = true

theorem any_congr_pointwise {α : Type} (l : List α) (p q : α → Bool)
    (h : ∀ x, p x = q x) : l.any p = l.any q := by
  induction l with
  | nil => rfl
  | cons x xs ih => simp [List.any_cons, h x, ih]

theorem any_keyMatches_upsertStep (st : UpsertState) (r : VideoRecord)
    (s : String) (vid : Nat) (h : st.table.any (keyMatches s vid) = true) :
    (upsertStep st r).table.any (keyMatches s vid) = true := by
  by_cases hk : st.table.any (keyMatches r.city_slug r.video_id) = true
  · have ht : (upsertStep st r).table = st.table.map (fun row =>
        if keyMatches r.city_slug r.video_id row then mergeRow row (recToValues r) else row) := by
      simp [upsertStep, hk]
    rw [ht, List.any_map]
    rw [any_congr_pointwise _ _ (keyMatches s vid)]
    · exact h
    · intro row
      by_cases hr : keyMatches r.city_slug r.video_id row = true
      · simp [Function.comp, hr, keyMatches_mergeRow]
      · simp [Function.comp, hr]
  · have ht : (upsertStep st r).table = st.table ++ [insertRow (recToValues r)] := by
      simp [upsertStep, hk]
    rw [ht, List.any_append, h]
    rfl

theorem keyMatches_insertRow_self (r : VideoRecord) :
    keyMatches r.city_slug r.video_id (insertRow (recToValues r)) = true := by
  simp [keyMatches, insertRow, recToValues]

theorem upsert_stability (todo : List VideoRecord) :
    ∀ (done : List VideoRecord) (st : UpsertState),
    (∀ w ∈ st.table, rowApply w done = w) →
    (∀ r ∈ done, HasKey st.table r) →
    ((∀ w ∈ (List.foldl upsertStep st todo).table, rowApply w (done ++ todo) = w) ∧
     (∀ r ∈ done ++ todo, HasKey (List.foldl upsertStep st todo).table r)) := by
  induction todo with
  | nil =>
    intro done st h1 h2
    constructor
    · intro w hw; rw [List.append_nil]; exact h1 w hw
    · intro r hr; rw [List.append_nil] at hr; exact h2 r hr
  | cons r rs ih =>
    intro done st h1 h2
    -- invariant for the state after one upsertStep, with done extended by r
    have hA : ∀ w ∈ (upsertStep st r).table, rowApply w (done ++ [r]) = w := by
      by_cases hk : st.table.any (keyMatches r.city_slug r.video_id) = true
      · have ht : (upsertStep st r).table = st.table.map (fun row =>
            if keyMatches r.city_slug r.video_id row then mergeRow row (recToValues r) else row) := by
          simp [upsertStep, hk]
        rw [ht]
        intro w hw
        rcases List.mem_map.1 hw with ⟨w0, hw0, rfl⟩
        by_cases hkw : keyMatches r.city_slug r.video_id w0 = true
        · rw [if_pos hkw, rowApply_append]
          have hkX : keyMatches r.city_slug r.video_id
              (rowApply (mergeRow w0 (recToValues r)) done) = true := by
            have e1 : (rowApply (mergeRow w0 (recToValues r)) done).city_slug = w0.city_slug := by
              rw [rowApply_city_slug]; exact rfl
            have e2 : (rowApply (mergeRow w0 (recToValues r)) done).video_id = w0.video_id := by
              rw [rowApply_video_id]; exact rfl
            simpa [keyMatches, e1, e2] using hkw
          rw [rowApply_cons, if_pos hkX, rowApply_nil]
          exact merge_rowApply_merge done w0 (recToValues r) (h1 w0 hw0)
        · rw [if_neg hkw, rowApply_append, h1 w0 hw0, rowApply_cons, if_neg hkw, rowApply_nil]
      · have ht : (upsertStep st r).table = st.table ++ [insertRow (recToValues r)] := by
          simp [upsertStep, hk]
        rw [ht]
        intro w hw
        rcases List.mem_append.1 hw with hw | hw
        · have hkw : keyMatches r.city_slug r.video_id w = false := by
            rcases List.any_eq_false.1 (by simpa using hk) w hw with h
            simpa using h
          rw [rowApply_append, h1 w hw, rowApply_cons, if_neg (by simp [hkw]), rowApply_nil]
        · have hw' : w = insertRow (recToValues r) := by simpa using hw
          subst hw'
          have hnone : ∀ r2 ∈ done,
              keyMatches r2.city_slug r2.video_id (insertRow (recToValues r)) = false := by
            intro r2 hr2
            by_contra hcon
            have htrue : keyMatches r2.city_slug r2.video_id (insertRow (recToValues r)) = true := by
              revert hcon
              cases keyMatches r2.city_slug r2.video_id (insertRow (recToValues r)) <;> simp
            have hkeys : r.city_slug = r2.city_slug ∧ r.video_id = r2.video_id := by
              have := htrue
              simp [keyMatches, insertRow, recToValues] at this
              exact ⟨this.1, this.2⟩
            have hpresent := h2 r2 hr2
            rw [HasKey] at hpresent
            rcases List.any_eq_true.1 hpresent with ⟨row, hrow, hrowk⟩
            have : st.table.any (keyMatches r.city_slug r.video_id) = true := by
              apply List.any_eq_true.2
              refine ⟨row, hrow, ?_⟩
              rw [hkeys.1, hkeys.2]
              exact hrowk
            exact hk this
          rw [rowApply_append, rowApply_no_match done _ hnone, rowApply_cons,
            if_pos (keyMatches_insertRow_self r), rowApply_nil]
          exact mergeRow_insertRow (recToValues r)
    have hB : ∀ r2 ∈ done ++ [r], HasKey (upsertStep st r).table r2 := by
      intro r2 hr2
      rcases List.mem_append.1 hr2 with hr2 | hr2
      · exact any_keyMatches_upsertStep st r _ _ (h2 r2 hr2)
      · have hr2' : r2 = r := by simpa using hr2
        subst hr2'
        by_cases hk : st.table.any (keyMatches r2.city_slug r2.video_id) = true
        · exact any_keyMatches_upsertStep st r2 _ _ hk
        · have ht : (upsertStep st r2).table = st.table ++ [insertRow (recToValues r2)] := by
            simp [upsertStep, hk]
          rw [HasKey, ht, List.any_append]
          have : [insertRow (recToValues r2)].any (keyMatches r2.city_slug r2.video_id) = true := by
            simp [List.any_cons, keyMatches_insertRow_self r2]
          rw [this, Bool.or_true]
    have main := ih (done ++ [r]) (upsertStep st r) hA hB
    rw [List.foldl_cons]
    constructor
    · intro w hw
      have := main.1 w hw
      rwa [List.append_assoc, List.singleton_append] at this
    · intro r2 hr2
      apply main.2
      rw [List.append_assoc, List.singleton_append]
      exact hr2

theorem upsert_noInsert (recs : List VideoRecord) :
    ∀ (u : List VideoRow) (n m : Nat),
    (∀ r ∈ recs, HasKey u r) →
    List.foldl upsertStep { table := u, newCount := n, updatedCount := m } recs =
      { table := u.map (fun w => rowApply w recs), newCount := n,
        updatedCount := m + recs.length } := by
  induction recs with
  | nil =>
    intro u n m _
    simp only [List.foldl_nil, List.length_nil, Nat.add_zero]
    congr 1
    have hid : ∀ w : VideoRow, rowApply w [] = w := fun w => rfl
    exact ((List.map_congr_left (fun a _ => hid a)).trans (List.map_id u)).symm
  | cons r rs ih =>
    intro u n m hkeys
    have hk : u.any (keyMatches r.city_slug r.video_id) = true :=
      hkeys r (List.mem_cons_self r rs)
    rw [List.foldl_cons]
    have hstep : upsertStep { table := u, newCount := n, updatedCount := m } r =
        { table := u.map (fun row =>
            if keyMatches r.city_slug r.video_id row then mergeRow row (recToValues r) else row),
          newCount := n, updatedCount := m + 1 } := by
      simp [upsertStep, hk]
    rw [hstep]
    have hkeys2 : ∀ r2 ∈ rs, HasKey (u.map (fun row =>
        if keyMatches r.city_slug r.video_id row then mergeRow row (recToValues r) else row)) r2 := by
      intro r2 hr2
      have h0 := hkeys r2 (List.mem_cons_of_mem r hr2)
      rw [HasKey] at h0 ⊢
      rw [List.any_map]
      rw [any_congr_pointwise _ _ (keyMatches r2.city_slug r2.video_id)]
      · exact h0
      · intro row
        by_cases hr : keyMatches r.city_slug r.video_id row = true
        · simp [Function.comp, hr, keyMatches_mergeRow]
        · simp [Function.comp, hr]
    rw [ih _ n (m + 1) hkeys2]
    rw [List.map_map]
    congr 1
    simp [List.length_cons]
    omega

/-- Claim C1: applying upsert_videos twice with the same record list (the
same records re-extracted from unchanged remote pages) leaves the stored
table exactly as after the first application, and on the second application
every record is classified as an update: the new count is zero and the
updated count equals the number of records. -/
theorem upsert_videos_idempotent (t : List VideoRow) (recs : List VideoRecord) :
    (upsert_videos (upsert_videos t recs).table recs).table =
      (upsert_videos t recs).table ∧
    (upsert_videos (upsert_videos t recs).table recs).newCount = 0 ∧
    (upsert_videos (upsert_videos t recs).table recs).updatedCount = recs.length := by
  have base1 : ∀ w ∈ t, rowApply w ([] : List VideoRecord) = w := fun w _ => rfl
  have base2 : ∀ r ∈ ([] : List VideoRecord),
      HasKey t r := by intro r hr; exact absurd hr (List.not_mem_nil r)
  have H := upsert_stability recs []
    { table := t, newCount := 0, updatedCount := 0 } base1 base2
  rw [List.nil_append] at H
  obtain ⟨hstab, hkeys⟩ := H
  have e1 : upsert_videos t recs =
      List.foldl upsertStep { table := t, newCount := 0, updatedCount := 0 } recs := rfl
  rw [← e1] at hstab hkeys
  have H2 := upsert_noInsert recs (upsert_videos t recs).table 0 0 hkeys
  have e2 : upsert_videos (upsert_videos t recs).table recs =
      List.foldl upsertStep
        { table := (upsert_videos t recs).table, newCount := 0, updatedCount := 0 } recs := rfl
  rw [e2, H2]
  refine ⟨?_, rfl, by simp⟩
  show (upsert_videos t recs).table.map (fun w => rowApply w recs) =
    (upsert_videos t recs).table
  calc (upsert_videos t recs).table.map (fun w => rowApply w recs)
      = (upsert_videos t recs).table.map id :=
        List.map_congr_left (fun w hw => hstab w hw)
    _ = (upsert_videos t recs).table := List.map_id _

/-- Why the page loop in scrape_paginated stopped: the for-range was
exhausted (page count ceiling), fetch returned None, the page contributed no
record whose id was not already seen, or the page had no Next link. -/
inductive StopReason where
  | ceiling
  | fetchFailed
  | noNew
  | noNext
deriving Repr, DecidableEq

/-- What one successfully fetched listing page provides to the loop body:
the records extract_videos_from_html returns for it and whether
has_next_page finds a Next link in it. -/
structure PageContent where
  records : List VideoRecord
  hasNext : Bool
deriving Repr, DecidableEq

/-- State of the running dedup merge: accumulated records, the seen id set
(a list used only through membership), and how many records this merge
added. -/
structure MergeState where
  acc : List VideoRecord
  seen : List Nat
  added : Nat
deriving Repr, DecidableEq

/-- One iteration of the dedup merge loop: a record is appended only when
its video id has not been seen. -/
def mergeOne (st : MergeState) (r : VideoRecord) : MergeState :=
  if r.video_id ∈ st.seen then st
  else { acc := st.acc ++ [r], seen := r.video_id :: st.seen, added := st.added + 1 }

/-- The dedup merge of one page of records into the accumulator, counting
how many were new (new_on_page in the source). -/
def mergeRecords (acc : List VideoRecord) (seen : List Nat)
    (recs : List VideoRecord) : MergeState :=
  recs.foldl mergeOne { acc := acc, seen := seen, added := 0 }

/-- Result of scrape_paginated, instrumented with the number of issued page
fetches and the reason the loop stopped. -/
structure PaginateResult where
  records : List VideoRecord
  fetches : Nat
  reason : StopReason
deriving Repr, DecidableEq

/-- The page loop of scrape_paginated.  remaining is how many iterations the
Python range still allows, page is the number of the next page to request;
pages are abstracted by an oracle from page number to fetched content. -/
def scrapeLoop (oracle : Nat → Option PageContent) :
    Nat → Nat → List VideoRecord → List Nat → Nat → PaginateResult
  | 0, _, acc, _, fetches => { records := acc, fetches := fetches, reason := .ceiling }
  | remaining + 1, page, acc, seen, fetches =>
    match oracle page with
    | none => { records := acc, fetches := fetches + 1, reason := .fetchFailed }
    | some pc =>
      let st := mergeRecords acc seen pc.records
      if st.added = 0 then { records := st.acc, fetches := fetches + 1, reason := .noNew }
      else if pc.hasNext = false then
        { records := st.acc, fetches := fetches + 1, reason := .noNext }
      else scrapeLoop oracle remaining (page + 1) st.acc st.seen (fetches + 1)

/-- scrape_paginated: run the page loop from page 1 with empty accumulator
and seen set, allowing max_pages iterations. -/
def scrape_paginated (oracle : Nat → Option PageContent) (maxPages : Nat) : PaginateResult :=
  scrapeLoop oracle maxPages 1 [] [] 0

theorem scrapeLoop_spec (oracle : Nat → Option PageContent) :
    ∀ (rem f : Nat) (acc : List VideoRecord) (seen : List Nat),
    (scrapeLoop oracle rem (f + 1) acc seen f).fetches ≤ f + rem ∧
    ((scrapeLoop oracle rem (f + 1) acc seen f).reason = .ceiling →
      (scrapeLoop oracle rem (f + 1) acc seen f).fetches = f + rem) ∧
    ((scrapeLoop oracle rem (f + 1) acc seen f).reason = .fetchFailed →
      oracle (scrapeLoop oracle rem (f + 1) acc seen f).fetches = none) ∧
    ((scrapeLoop oracle rem (f + 1) acc seen f).reason = .noNew ∨
        (scrapeLoop oracle rem (f + 1) acc seen f).reason = .noNext →
      ∃ pc, oracle (scrapeLoop oracle rem (f + 1) acc seen f).fetches = some pc) ∧
    ((scrapeLoop oracle rem (f + 1) acc seen f).reason = .noNext →
      ∃ pc, oracle (scrapeLoop oracle rem (f + 1) acc seen f).fetches = some pc ∧
        pc.hasNext = false) := by
  intro rem
  induction rem with
  | zero =>
    intro f acc seen
    refine ⟨Nat.le_refl _, fun _ => rfl, fun h => ?_, fun h => ?_, fun h => ?_⟩ <;>
      simp [scrapeLoop] at h
  | succ n ih =>
    intro f acc seen
    show _ ∧ _ ∧ _ ∧ _ ∧ _
    cases horacle : oracle (f + 1) with
    | none =>
      have hres : scrapeLoop oracle (n + 1) (f + 1) acc seen f =
          { records := acc, fetches := f + 1, reason := .fetchFailed } := by
        simp [scrapeLoop, horacle]
      rw [hres]
      refine ⟨by simp only [PaginateResult.mk.injEq]; omega, by intro h; simp at h, fun _ => horacle, fun h => ?_, fun h => ?_⟩ <;>
        simp at h
    | some pc =>
      by_cases hadd : (mergeRecords acc seen pc.records).added = 0
      · have hres : scrapeLoop oracle (n + 1) (f + 1) acc seen f =
            { records := (mergeRecords acc seen pc.records).acc,
              fetches := f + 1, reason := .noNew } := by
          simp [scrapeLoop, horacle, hadd]
        rw [hres]
        refine ⟨by simp only [PaginateResult.mk.injEq]; omega, by intro h; simp at h, fun h => by simp at h,
          fun _ => ⟨pc, horacle⟩, fun h => by simp at h⟩
      · by_cases hnext : pc.hasNext = false
        · have hres : scrapeLoop oracle (n + 1) (f + 1) acc seen f =
              { records := (mergeRecords acc seen pc.records).acc,
                fetches := f + 1, reason := .noNext } := by
            simp [scrapeLoop, horacle, hadd, hnext]
          rw [hres]
          exact ⟨by simp only [PaginateResult.mk.injEq]; omega, by intro h; simp at h, fun h => by simp at h,
            fun _ => ⟨pc, horacle⟩, fun _ => ⟨pc, horacle, hnext⟩⟩
        · have hres : scrapeLoop oracle (n + 1) (f + 1) acc seen f =
              scrapeLoop oracle n (f + 1 + 1) (mergeRecords acc seen pc.records).acc
                (mergeRecords acc seen pc.records).seen (f + 1) := by
            simp [scrapeLoop, horacle, hadd, hnext]
          rw [hres]
          have H := ih (f + 1) (mergeRecords acc seen pc.records).acc
            (mergeRecords acc seen pc.records).seen
          exact ⟨by have := H.1; omega, fun h => by rw [H.2.1 h]; omega, H.2.2.1, H.2.2.2.1, H.2.2.2.2⟩

/-- Invariant of the dedup merge: no duplicate ids in the accumulator, and
every accumulated id is in the seen set. -/
def MergeInv (acc : List VideoRecord) (seen : List Nat) : Prop :=
  (∀ i ∈ acc.map (fun r => r.video_id), i ∈ seen) ∧
  (acc.map (fun r => r.video_id)).Nodup

theorem mergeRecords_inv (recs : List VideoRecord) :
    ∀ (acc : List VideoRecord) (seen : List Nat) (n : Nat), MergeInv acc seen →
      MergeInv (List.foldl mergeOne { acc := acc, seen := seen, added := n } recs).acc
        (List.foldl mergeOne { acc := acc, seen := seen, added := n } recs).seen := by
  induction recs with
  | nil => intro acc seen n h; exact h
  | cons r rs ih =>
    intro acc seen n h
    rw [List.foldl_cons]
    by_cases hmem : r.video_id ∈ seen
    · have hstep : mergeOne { acc := acc, seen := seen, added := n } r =
          { acc := acc, seen := seen, added := n } := by
        simp [mergeOne, hmem]
      rw [hstep]
      exact ih acc seen n h
    · have hstep : mergeOne { acc := acc, seen := seen, added := n } r =
          { acc := acc ++ [r], seen := r.video_id :: seen, added := n + 1 } := by
        simp [mergeOne, hmem]
      rw [hstep]
      apply ih
      constructor
      · intro i hi
        rw [List.map_append] at hi
        rcases List.mem_append.1 hi with hi | hi
        · exact List.mem_cons_of_mem _ (h.1 i hi)
        · simp at hi
          simp [hi]
      · rw [List.map_append]
        rw [List.nodup_append]
        refine ⟨h.2, by simp, ?_⟩
        intro a ha hb
        simp at hb
        subst hb
        exact hmem (h.1 _ ha)

theorem mergeRecords_inv_base (acc : List VideoRecord) (seen : List Nat)
    (recs : List VideoRecord) (h : MergeInv acc seen) :
    MergeInv (mergeRecords acc seen recs).acc (mergeRecords acc seen recs).seen :=
  mergeRecords_inv recs acc seen 0 h

theorem scrapeLoop_nodup (oracle : Nat → Option PageContent) :
    ∀ (rem page f : Nat) (acc : List VideoRecord) (seen : List Nat),
    MergeInv acc seen →
    ((scrapeLoop oracle rem page acc seen f).records.map (fun r => r.video_id)).Nodup := by
  intro rem
  induction rem with
  | zero => intro page f acc seen h; exact h.2
  | succ n ih =>
    intro page f acc seen h
    show ((scrapeLoop oracle (n + 1) page acc seen f).records.map _).Nodup
    cases horacle : oracle page with
    | none => simp [scrapeLoop, horacle]; exact h.2
    | some pc =>
      have hinv := mergeRecords_inv_base acc seen pc.records h
      by_cases hadd : (mergeRecords acc seen pc.records).added = 0
      · simp [scrapeLoop, horacle, hadd]; exact hinv.2
      · by_cases hnext : pc.hasNext = false
        · simp [scrapeLoop, horacle, hadd, hnext]; exact hinv.2
        · have hres : scrapeLoop oracle (n + 1) page acc seen f =
              scrapeLoop oracle n (page + 1) (mergeRecords acc seen pc.records).acc
                (mergeRecords acc seen pc.records).seen (f + 1) := by
            simp [scrapeLoop, horacle, hadd, hnext]
          rw [hres]
          exact ih (page + 1) (f + 1) _ _ hinv

/-- Claim C3: for every page oracle and every page-count ceiling, the
paginator issues at most that many page fetches for a category, even when
every page reports new records and a Next link. -/
theorem scrape_paginated_fetch_bound (oracle : Nat → Option PageContent)
    (maxPages : Nat) : (scrape_paginated oracle maxPages).fetches ≤ maxPages := by
  have := (scrapeLoop_spec oracle maxPages 0 [] []).1
  simpa [scrape_paginated] using this

theorem foldl_mergeOne_added_mono (recs : List VideoRecord) :
    ∀ st : MergeState, st.added ≤ (List.foldl mergeOne st recs).added := by
  induction recs with
  | nil => intro st; exact Nat.le_refl _
  | cons r rs ih =>
    intro st
    rw [List.foldl_cons]
    refine Nat.le_trans ?_ (ih (mergeOne st r))
    by_cases h : r.video_id ∈ st.seen
    · simp [mergeOne, h]
    · simp [mergeOne, h]

theorem mergeRecords_added_pos (r : VideoRecord) (rs : List VideoRecord) :
    (mergeRecords [] [] (r :: rs)).added ≠ 0 := by
  have hstep : mergeOne { acc := [], seen := [], added := 0 } r =
      { acc := [r], seen := [r.video_id], added := 1 } := by
    simp [mergeOne]
  have : (mergeRecords [] [] (r :: rs)).added =
      (List.foldl mergeOne { acc := [r], seen := [r.video_id], added := 1 } rs).added := by
    rw [mergeRecords, List.foldl_cons, hstep]
  rw [this]
  have hmono := foldl_mergeOne_added_mono rs { acc := [r], seen := [r.video_id], added := 1 }
  have h1 : ({ acc := [r], seen := [r.video_id], added := 1 } : MergeState).added = 1 := rfl
  rw [h1] at hmono
  omega

/-- Page oracle on which every fetch fails, used to exhibit the fourth
termination cause of the page loop. -/
def oracleAllFail : Nat → Option PageContent := fun _ => none

/-- Claim C5 (counterexample): the loop can also stop because a page fetch
returned no body, a case not covered by the three listed conditions: with
every fetch failing and a ceiling of 5, the loop stops after one fetch with
the fetch-failed reason, which is none of ceiling, no-new-records,
no-next-link. -/
theorem scrape_paginated_stop_counterexample :
    (scrape_paginated oracleAllFail 5).reason = StopReason.fetchFailed ∧
    (scrape_paginated oracleAllFail 5).reason ≠ StopReason.ceiling ∧
    (scrape_paginated oracleAllFail 5).reason ≠ StopReason.noNew ∧
    (scrape_paginated oracleAllFail 5).reason ≠ StopReason.noNext := by
  refine ⟨rfl, ?_, ?_, ?_⟩ <;> decide

/-- Claim C5 (amended): the page loop stops exactly at the first of FOUR
conditions: the page number exceeds the ceiling (then exactly maxPages
fetches were issued), the page fetch fails (the last requested page returned
none), the page yields zero new records, or the page lacks a Next link (in
both of the latter cases the last requested page was fetched successfully,
and in the no-next case it carried hasNext = false); a page-1 response with
records but no Next link stops the loop after exactly one fetch, and the
returned record list carries each video id at most once. -/
theorem scrape_paginated_termination (oracle : Nat → Option PageContent)
    (maxPages : Nat) :
    ((scrape_paginated oracle maxPages).reason = StopReason.ceiling →
      (scrape_paginated oracle maxPages).fetches = maxPages) ∧
    ((scrape_paginated oracle maxPages).reason = StopReason.fetchFailed →
      oracle (scrape_paginated oracle maxPages).fetches = none) ∧
    ((scrape_paginated oracle maxPages).reason = StopReason.noNew ∨
        (scrape_paginated oracle maxPages).reason = StopReason.noNext →
      ∃ pc, oracle (scrape_paginated oracle maxPages).fetches = some pc) ∧
    ((scrape_paginated oracle maxPages).reason = StopReason.noNext →
      ∃ pc, oracle (scrape_paginated oracle maxPages).fetches = some pc ∧
        pc.hasNext = false) ∧
    (∀ recs, 1 ≤ maxPages →
      oracle 1 = some { records := recs, hasNext := false } → recs ≠ [] →
      (scrape_paginated oracle maxPages).fetches = 1) ∧
    ((scrape_paginated oracle maxPages).records.map (fun r => r.video_id)).Nodup := by
  have H := scrapeLoop_spec oracle maxPages 0 [] []
  have e : scrapeLoop oracle maxPages (0 + 1) [] [] 0 = scrape_paginated oracle maxPages := rfl
  rw [e] at H
  refine ⟨fun h => (H.2.1 h).trans (Nat.zero_add maxPages), H.2.2.1, H.2.2.2.1, H.2.2.2.2, ?_, ?_⟩
  · intro recs hK h1 hne
    cases recs with
    | nil => exact absurd rfl hne
    | cons r rs =>
      cases maxPages with
      | zero => omega
      | succ k =>
        have hadd := mergeRecords_added_pos r rs
        rw [mergeRecords, List.foldl_cons] at hadd
        show (scrapeLoop oracle (k + 1) 1 [] [] 0).fetches = 1
        simp [scrapeLoop, h1, mergeRecords, hadd]
  · exact scrapeLoop_nodup oracle maxPages 1 0 [] []
      ⟨fun i hi => absurd hi (List.not_mem_nil i), List.nodup_nil⟩

/-- Concrete page oracle: page 1 holds one record and no Next link. -/
def oracleOnePage : Nat → Option PageContent :=
  fun n => if n = 1 then some { records := [recW], hasNext := false } else none

theorem scrape_paginated_termination_witness :
    (1 ≤ 3 ∧ oracleOnePage 1 = some { records := [recW], hasNext := false } ∧
      [recW] ≠ [] ∧ (scrape_paginated oracleOnePage 3).fetches = 1) ∧
    ((scrape_paginated oracleOnePage 3).reason = StopReason.noNext ∧
      ∃ pc, oracleOnePage (scrape_paginated oracleOnePage 3).fetches = some pc ∧
        pc.hasNext = false) :=
  ⟨⟨by decide, rfl, by decide,
    (scrape_paginated_termination oracleOnePage 3).2.2.2.2.1 [recW] (by decide) rfl (by decide)⟩,
   ⟨by decide, (scrape_paginated_termination oracleOnePage 3).2.2.2.1 (by decide)⟩⟩

/-- One iteration of the category loop in the old_multi arm of
scrape_client: run scrape_paginated for the category and merge its records
into the running deduplicated accumulator; categories_scraped always
increments. -/
def catStep (maxPages : Nat) (p : MergeState × Nat)
    (oracle : Nat → Option PageContent) : MergeState × Nat :=
  (mergeRecords p.1.acc p.1.seen (scrape_paginated oracle maxPages).records, p.2 + 1)

/-- The old_multi arm of scrape_client: extract the default view page first
(counting one category if it yielded any records), then scrape every
category with pagination, merging everything deduplicated by video id.
Returns (all_records, categories_scraped). -/
def scrape_client_old_multi (defaultPage : Option (List VideoRecord))
    (cats : List (Nat → Option PageContent)) (maxPages : Nat) :
    List VideoRecord × Nat :=
  let st0 : MergeState :=
    match defaultPage with
    | none => { acc := [], seen := [], added := 0 }
    | some recs => mergeRecords [] [] recs
  let cats0 : Nat :=
    match defaultPage with
    | none => 0
    | some recs => if recs = [] then 0 else 1
  let final := cats.foldl (catStep maxPages) (st0, cats0)
  (final.1.acc, final.2)

theorem catFold_inv (maxPages : Nat) (cats : List (Nat → Option PageContent)) :
    ∀ (st : MergeState) (n : Nat), MergeInv st.acc st.seen →
      MergeInv (cats.foldl (catStep maxPages) (st, n)).1.acc
        (cats.foldl (catStep maxPages) (st, n)).1.seen := by
  induction cats with
  | nil => intro st n h; exact h
  | cons o os ih =>
    intro st n h
    rw [List.foldl_cons]
    have hstep : catStep maxPages (st, n) o =
        (mergeRecords st.acc st.seen (scrape_paginated o maxPages).records, n + 1) := rfl
    rw [hstep]
    exact ih _ _ (mergeRecords_inv_base st.acc st.seen _ h)

/-- Concrete record with a given id, used in concrete crawl scenarios. -/
def mkRec (id : Nat) : VideoRecord :=
  { city_slug := "c", video_id := id, title := "t", video_date := none,
    duration := "", data := ⟨id, "t", none, ""⟩ }

/-- Concrete default view page yielding video ids 1 and 2. -/
def dpW : Option (List VideoRecord) := some [mkRec 1, mkRec 2]

/-- Concrete sole category whose single page yields ids 2 and 3 with no Next
link. -/
def catOracleW : Nat → Option PageContent :=
  fun n => if n = 1 then some { records := [mkRec 2, mkRec 3], hasNext := false } else none

/-- Claim C7: the old_multi orchestrator arm returns a record list with each
video id at most once for every default page and category family; in the
concrete case where the default page yields ids 1 and 2 and the sole
category yields ids 2 and 3, the final list has exactly ids 1, 2, 3 and
videos_found = 3. -/
theorem scrape_client_cross_category_dedup :
    (∀ (dp : Option (List VideoRecord)) (cats : List (Nat → Option PageContent))
      (maxPages : Nat),
      ((scrape_client_old_multi dp cats maxPages).1.map (fun r => r.video_id)).Nodup) ∧
    ((scrape_client_old_multi dpW [catOracleW] 500).1.map (fun r => r.video_id) = [1, 2, 3] ∧
     (scrape_client_old_multi dpW [catOracleW] 500).1.length = 3) := by
  constructor
  · intro dp cats maxPages
    have hempty : MergeInv [] [] :=
      ⟨fun i hi => absurd hi (List.not_mem_nil i), List.nodup_nil⟩
    cases dp with
    | none =>
      exact (catFold_inv maxPages cats { acc := [], seen := [], added := 0 } 0 hempty).2
    | some recs =>
      by_cases hrec : recs = []
      · exact (catFold_inv maxPages cats (mergeRecords [] [] recs) _
          (mergeRecords_inv_base [] [] recs hempty)).2
      · exact (catFold_inv maxPages cats (mergeRecords [] [] recs) _
          (mergeRecords_inv_base [] [] recs hempty)).2
  · constructor
    · decide
    · decide

/-- What one HTTP attempt inside fetch can observe: a response with a status
code and body, or a raised requests.RequestException. -/
inductive Attempt where
  | response (body : String) (status : Nat)
  | netError
deriving Repr, DecidableEq

/-- The three-way classification of a fetch call: HTTP 200 with the body,
HTTP 404/410 (absent), or retries exhausted on transient failures.  In the
Python return value the last two are both None; the classification follows
the distinct return paths of the code. -/
inductive FetchOutcome where
  | ok (body : String)
  | absent
  | transientError
deriving Repr, DecidableEq

/-- Result of fetch, instrumented with the number of attempts issued and the
list of backoff sleeps (the 2*attempt delays between retries). -/
structure FetchResult where
  outcome : FetchOutcome
  attempts : Nat
  backoffs : List Nat
deriving Repr, DecidableEq

/-- An attempt result on which the loop falls through to the retry logic:
neither 200 nor 404/410. -/
def retryable (a : Attempt) : Bool :=
  match a with
  | .netError => true
  | .response _ status => !(status == 200 || status == 404 || status == 410)

/-- The attempt loop of fetch.  fuel is how many attempts the Python range
still allows, attempt the current attempt number; attempts made and backoff
sleeps are accumulated.  The loop returns the 200 body at once, returns
absent at once on 404/410, and otherwise sleeps 2*attempt (when a retry
remains) and retries; falling off the loop returns transient-error. -/
def fetchLoop (oracle : Nat → Attempt) (retries : Nat) :
    Nat → Nat → Nat → List Nat → FetchResult
  | 0, _, made, delays => { outcome := .transientError, attempts := made, backoffs := delays }
  | fuel + 1, attempt, made, delays =>
    match oracle attempt with
    | .response body status =>
      if status == 200 then
        { outcome := .ok body, attempts := made + 1, backoffs := delays }
      else if status == 404 || status == 410 then
        { outcome := .absent, attempts := made + 1, backoffs := delays }
      else if attempt < retries then
        fetchLoop oracle retries fuel (attempt + 1) (made + 1) (delays ++ [2 * attempt])
      else
        { outcome := .transientError, attempts := made + 1, backoffs := delays }
    | .netError =>
      if attempt < retries then
        fetchLoop oracle retries fuel (attempt + 1) (made + 1) (delays ++ [2 * attempt])
      else
        { outcome := .transientError, attempts := made + 1, backoffs := delays }

/-- fetch: run the attempt loop from attempt 1 with the given retry bound
(MAX_RETRIES = 2 by default at every listing-page call site). -/
def fetch (oracle : Nat → Attempt) (retries : Nat) : FetchResult :=
  fetchLoop oracle retries retries 1 0 []

theorem fetchLoop_attempts_le (oracle : Nat → Attempt) (retries : Nat) :
    ∀ (fuel attempt made : Nat) (delays : List Nat),
      (fetchLoop oracle retries fuel attempt made delays).attempts ≤ made + fuel := by
  intro fuel
  induction fuel with
  | zero => intro attempt made delays; exact Nat.le_refl _
  | succ n ih =>
    intro attempt made delays
    show (fetchLoop oracle retries (n + 1) attempt made delays).attempts ≤ made + (n + 1)
    cases h : oracle attempt with
    | response body status =>
      by_cases h200 : (status == 200) = true
      · simp [fetchLoop, h, h200]
      · by_cases h404 : (status == 404 || status == 410) = true
        · simp [fetchLoop, h, h200, h404]
        · by_cases hlt : attempt < retries
          · have : fetchLoop oracle retries (n + 1) attempt made delays =
                fetchLoop oracle retries n (attempt + 1) (made + 1) (delays ++ [2 * attempt]) := by
              simp [fetchLoop, h, h200, h404, hlt]
            rw [this]
            have := ih (attempt + 1) (made + 1) (delays ++ [2 * attempt])
            omega
          · simp [fetchLoop, h, h200, h404, hlt]
    | netError =>
      by_cases hlt : attempt < retries
      · have : fetchLoop oracle retries (n + 1) attempt made delays =
            fetchLoop oracle retries n (attempt + 1) (made + 1) (delays ++ [2 * attempt]) := by
          simp [fetchLoop, h, hlt]
        rw [this]
        have := ih (attempt + 1) (made + 1) (delays ++ [2 * attempt])
        omega
      · simp [fetchLoop, h, hlt]

/-- Claim C4: fetch classifies every call into exactly the three outcomes ok
/ absent / transient-error; a 200 returns the body after one attempt; a
404/410 returns absent immediately after that single attempt with no retry
and no backoff; when both allowed attempts fail transiently (any other
status or a network error) the call makes exactly the bound of 2 attempts
with the incremental backoff sleep of 2 seconds after attempt 1 and returns
transient-error; and for every retry bound the number of attempts never
exceeds the bound. -/
theorem fetch_contract (oracle : Nat → Attempt) :
    (∀ body, oracle 1 = Attempt.response body 200 →
      fetch oracle 2 = { outcome := .ok body, attempts := 1, backoffs := [] }) ∧
    (∀ body status, oracle 1 = Attempt.response body status →
      (status = 404 ∨ status = 410) →
      fetch oracle 2 = { outcome := .absent, attempts := 1, backoffs := [] }) ∧
    ((∀ a, 1 ≤ a → a ≤ 2 → retryable (oracle a) = true) →
      fetch oracle 2 = { outcome := .transientError, attempts := 2, backoffs := [2] }) ∧
    (∀ retries, (fetch oracle retries).attempts ≤ retries) := by
  refine ⟨?_, ?_, ?_, ?_⟩
  · intro body h
    show fetchLoop oracle 2 2 1 0 [] = _
    simp [fetchLoop, h]
  · intro body status h hs
    show fetchLoop oracle 2 2 1 0 [] = _
    have hne : (status == 200) = false := by
      rcases hs with rfl | rfl <;> rfl
    have habs : (status == 404 || status == 410) = true := by
      rcases hs with rfl | rfl <;> rfl
    simp [fetchLoop, h, hne, habs]
  · intro hr
    have h1 := hr 1 (by omega) (by omega)
    have h2 := hr 2 (by omega) (by omega)
    show fetchLoop oracle 2 2 1 0 [] = _
    cases ho1 : oracle 1 with
    | response body status =>
      rw [ho1] at h1
      have hne : (status == 200) = false := by
        by_contra hc
        have : (status == 200) = true := by
          revert hc; cases status == 200 <;> simp
        simp [retryable, this] at h1
      have habs : (status == 404 || status == 410) = false := by
        by_contra hc
        have hT : (status == 404 || status == 410) = true := by
          revert hc; cases status == 404 || status == 410 <;> simp
        have hd : status = 404 ∨ status = 410 := by simpa using hT
        simp [retryable] at h1
        rcases hd with rfl | rfl <;> simp_all
      have hstep : fetchLoop oracle 2 2 1 0 [] =
          fetchLoop oracle 2 1 2 1 [2] := by
        simp [fetchLoop, ho1, hne, habs]
      rw [hstep]
      cases ho2 : oracle 2 with
      | response body2 status2 =>
        rw [ho2] at h2
        have hne2 : (status2 == 200) = false := by
          by_contra hc
          have : (status2 == 200) = true := by
            revert hc; cases status2 == 200 <;> simp
          simp [retryable, this] at h2
        have habs2 : (status2 == 404 || status2 == 410) = false := by
          by_contra hc
          have hT : (status2 == 404 || status2 == 410) = true := by
            revert hc; cases status2 == 404 || status2 == 410 <;> simp
          have hd : status2 = 404 ∨ status2 = 410 := by simpa using hT
          simp [retryable] at h2
          rcases hd with rfl | rfl <;> simp_all
        simp [fetchLoop, ho2, hne2, habs2]
      | netError =>
        simp [fetchLoop, ho2]
    | netError =>
      have hstep : fetchLoop oracle 2 2 1 0 [] =
          fetchLoop oracle 2 1 2 1 [2] := by
        simp [fetchLoop, ho1]
      rw [hstep]
      cases ho2 : oracle 2 with
      | response body2 status2 =>
        rw [ho2] at h2
        have hne2 : (status2 == 200) = false := by
          by_contra hc
          have : (status2 == 200) = true := by
            revert hc; cases status2 == 200 <;> simp
          simp [retryable, this] at h2
        have habs2 : (status2 == 404 || status2 == 410) = false := by
          by_contra hc
          have hT : (status2 == 404 || status2 == 410) = true := by
            revert hc; cases status2 == 404 || status2 == 410 <;> simp
          have hd : status2 = 404 ∨ status2 = 410 := by simpa using hT
          simp [retryable] at h2
          rcases hd with rfl | rfl <;> simp_all
        simp [fetchLoop, ho2, hne2, habs2]
      | netError =>
        simp [fetchLoop, ho2]
  · intro retries
    have := fetchLoop_attempts_le oracle retries retries 1 0 []
    simpa [fetch] using this

/-- Concrete attempt oracle: every attempt returns HTTP 500. -/
def oracle500 : Nat → Attempt := fun _ => Attempt.response "server error" 500

theorem fetch_contract_witness :
    (∀ a, 1 ≤ a → a ≤ 2 → retryable (oracle500 a) = true) ∧
    fetch oracle500 2 =
      { outcome := .transientError, attempts := 2, backoffs := [2] } :=
  ⟨fun _ _ _ => rfl, (fetch_contract oracle500).2.2.1 (fun _ _ _ => rfl)⟩

/-- The ScrapeResult dataclass (elapsed_seconds, a wall-clock float, is
omitted). -/
structure ScrapeResult where
  slug : String
  success : Bool
  videos_found : Nat := 0
  videos_new : Nat := 0
  videos_updated : Nat := 0
  error : Option String := none
  categories_scraped : Nat := 0
deriving Repr, DecidableEq

/-- The three stages of the try-block of scrape_one_client that can raise,
each abstracted as its outcome: the scrape phase (get_existing_video_ids
plus scrape_client, yielding videos_found and categories_scraped), the
upsert phase (yielding the new and updated counts), and the post-success
phase (update_client_video_count, optional enrichment, progress write). -/
structure SiteRun where
  scrapeOutcome : Except String (Nat × Nat)
  upsertOutcome : Except String (Nat × Nat)
  postOutcome : Except String Unit

/-- scrape_one_client: the result starts with success=false; counts are
filled in as the stages complete; any raised exception is caught by the
enclosing except-block, which records str(exc) as the error and returns the
result as it stood, success included, instead of propagating.  Note that
result.success has already been set to True before the post-success phase
runs. -/
def scrape_one_client (slug : String) (dryRun : Bool) (run : SiteRun) : ScrapeResult :=
  match run.scrapeOutcome with
  | .error msg => { slug := slug, success := false, error := some msg }
  | .ok (found, cats) =>
    if dryRun then
      { slug := slug, success := true, videos_found := found, categories_scraped := cats }
    else
      match run.upsertOutcome with
      | .error msg =>
        { slug := slug, success := false, videos_found := found,
          categories_scraped := cats, error := some msg }
      | .ok (n, u) =>
        match run.postOutcome with
        | .error msg =>
          { slug := slug, success := true, videos_found := found,
            categories_scraped := cats, videos_new := n, videos_updated := u,
            error := some msg }
        | .ok _ =>
          { slug := slug, success := true, videos_found := found,
            categories_scraped := cats, videos_new := n, videos_updated := u }

/-- main's per-site loop and exit code: every slug in the list is processed
in order and the process exits 1 when the failures list is nonempty, 0
otherwise. -/
def runDriver (dryRun : Bool) (sites : List (String × SiteRun)) :
    List ScrapeResult × Nat :=
  let results := sites.map (fun p => scrape_one_client p.1 dryRun p.2)
  (results, if results.any (fun r => !r.success) then 1 else 0)

/-- Concrete site run in which scraping and the upsert succeed but the
post-persist phase (for example update_client_video_count) raises. -/
def runPostFail : SiteRun :=
  { scrapeOutcome := .ok (5, 2), upsertOutcome := .ok (3, 2),
    postOutcome := .error "db write failed" }

/-- Claim C6 (counterexample): an exception raised after the success flag
was set (here in the post-persist phase) is caught and recorded as the
site's error, yet the returned ScrapeResult has success = true, refuting
that every caught exception yields success = false. -/
theorem scrape_one_client_counterexample :
    (scrape_one_client "austintx" false runPostFail).error = some "db write failed" ∧
    (scrape_one_client "austintx" false runPostFail).success = true := by
  constructor <;> rfl

/-- Claim C6 (amended): an exception during the scrape phase or the upsert
phase is caught, recorded as the site's error, and yields success = false;
an exception in the post-persist phase (count update, enrichment, progress
write, which run after result.success = True) is caught and recorded but
leaves success = true; in every case a ScrapeResult is returned instead of
propagating, the driver produces one result per site in order, and the
process exit code is non-zero exactly when at least one ScrapeResult has
success = false. -/
theorem scrape_one_client_driver_semantics :
    (∀ slug dryRun run msg, run.scrapeOutcome = .error msg →
      scrape_one_client slug dryRun run =
        { slug := slug, success := false, error := some msg }) ∧
    (∀ slug run found cats msg, run.scrapeOutcome = .ok (found, cats) →
      run.upsertOutcome = .error msg →
      (scrape_one_client slug false run).success = false ∧
      (scrape_one_client slug false run).error = some msg) ∧
    (∀ slug run found cats n u msg, run.scrapeOutcome = .ok (found, cats) →
      run.upsertOutcome = .ok (n, u) → run.postOutcome = .error msg →
      (scrape_one_client slug false run).success = true ∧
      (scrape_one_client slug false run).error = some msg) ∧
    (∀ dryRun sites, (runDriver dryRun sites).1 =
      sites.map (fun p => scrape_one_client p.1 dryRun p.2) ∧
      (runDriver dryRun sites).1.length = sites.length) ∧
    (∀ dryRun sites, (runDriver dryRun sites).2 ≠ 0 ↔
      ∃ r ∈ (runDriver dryRun sites).1, r.success = false) := by
  refine ⟨?_, ?_, ?_, ?_, ?_⟩
  · intro slug dryRun run msg h
    simp [scrape_one_client, h]
  · intro slug run found cats msg h1 h2
    constructor <;> simp [scrape_one_client, h1, h2]
  · intro slug run found cats n u msg h1 h2 h3
    constructor <;> simp [scrape_one_client, h1, h2, h3]
  · intro dryRun sites
    exact ⟨rfl, by simp [runDriver]⟩
  · intro dryRun sites
    show (if (sites.map (fun p => scrape_one_client p.1 dryRun p.2)).any
        (fun r => !r.success) then 1 else 0) ≠ 0 ↔ _
    by_cases h : (sites.map (fun p => scrape_one_client p.1 dryRun p.2)).any
        (fun r => !r.success) = true
    · rw [if_pos h]
      constructor
      · intro _
        rcases List.any_eq_true.1 h with ⟨r, hr, hrs⟩
        exact ⟨r, hr, by simpa using hrs⟩
      · intro _; omega
    · rw [if_neg h]
      constructor
      · intro hc; exact absurd rfl hc
      · intro ⟨r, hr, hrs⟩
        exfalso
        apply h
        exact List.any_eq_true.2 ⟨r, hr, by simpa using hrs⟩

/-- Concrete site run whose scrape phase raises. -/
def runScrapeFail : SiteRun :=
  { scrapeOutcome := .error "Could not access Swagit site for x",
    upsertOutcome := .ok (0, 0), postOutcome := .ok () }

theorem scrape_one_client_driver_semantics_witness :
    (runScrapeFail.scrapeOutcome = .error "Could not access Swagit site for x" ∧
      scrape_one_client "x" false runScrapeFail =
        { slug := "x", success := false,
          error := some "Could not access Swagit site for x" }) ∧
    ((runDriver false [("x", runScrapeFail)]).2 ≠ 0 ↔
      ∃ r ∈ (runDriver false [("x", runScrapeFail)]).1, r.success = false) :=
  ⟨⟨rfl, scrape_one_client_driver_semantics.1 "x" false runScrapeFail
      "Could not access Swagit site for x" rfl⟩,
   scrape_one_client_driver_semantics.2.2.2.2 false [("x", runScrapeFail)]⟩

/-- An anchor as discover_site consumes it: href attribute and stripped
visible text. -/
structure Link where
  href : String
  text : String
deriving Repr, DecidableEq

/-- Python str.strip(single char) on the slash: drop leading and trailing
slashes. -/
def stripSlashes (s : List Char) : List Char :=
  ((s.dropWhile (fun c => c == '/')).reverse.dropWhile (fun c => c == '/')).reverse

/-- Python split on the question mark, keeping the first piece. -/
def takeBeforeQuestion (s : List Char) : List Char :=
  s.takeWhile (fun c => !(c == '?'))

/-- Python replace of hyphens by spaces. -/
def replaceDash (s : List Char) : List Char :=
  s.map (fun c => if c == '-' then ' ' else c)

/-- Python str.title on ASCII: a letter is uppercased when the previous
character is not a letter and lowercased otherwise. -/
def pyTitleGo : Bool → List Char → List Char
  | _, [] => []
  | prevAlpha, c :: cs =>
    if c.isAlpha then
      (if prevAlpha then c.toLower else c.toUpper) :: pyTitleGo true cs
    else
      c :: pyTitleGo false cs

/-- The display-name derivation of discover_site for a link with empty text:
href.strip('/').split('?')[0].replace('-',' ').title(). -/
def deriveNameFromPath (href : String) : String :=
  String.mk (pyTitleGo false (replaceDash (takeBeforeQuestion (stripSlashes href.toList))))

/-- Python str.startswith via the character lists. -/
def startsWithStr (s p : String) : Bool :=
  p.toList.isPrefixOf s.toList

/-- Python substring containment via the character lists. -/
def containsStr (s needle : String) : Bool :=
  s.toList.tails.any (fun t => needle.toList.isPrefixOf t)

/-- Python re.match of the video-detail pattern: the href begins with the
videos path followed by a digit. -/
def videosNumAtStart (href : String) : Bool :=
  startsWithStr href "/videos/" &&
    (match href.toList.drop 8 with
     | c :: _ => c.isDigit
     | [] => false)

/-- Name computation shared by both new-style discovery branches: empty link
text on a slash path derives the name from the path segment, and an empty
name falls back to the raw href. -/
def navLinkName (lk : Link) : String :=
  let name := if lk.text = "" && startsWithStr lk.href "/" then
    deriveNameFromPath lk.href else lk.text
  if name = "" then lk.href else name

/-- The category filter of the nav-menu branch of discover_site. -/
def navFilter (href : String) : Bool :=
  startsWithStr href "/" && !startsWithStr href "/videos/" &&
  !startsWithStr href "/admin" && !startsWithStr href "/events" &&
  !containsStr href "page=" && decide (1 < href.length)

/-- The nav-menu branch of new-style discovery: every matching link of every
matching nav list is appended, in order, with no dedup. -/
def navCategories (navs : List (List Link)) : List (String × String) :=
  navs.foldl (fun acc nav =>
    acc ++ (nav.filter (fun lk => navFilter lk.href)).map
      (fun lk => (lk.href, navLinkName lk))) []

/-- The category filter of the fallback all-links branch, which also
excludes the bare root path and any href already collected. -/
def fallbackFilter (seen : List String) (href : String) : Bool :=
  startsWithStr href "/" && !videosNumAtStart href &&
  !startsWithStr href "/admin" && !startsWithStr href "/events" &&
  !containsStr href "page=" && !(href == "/") && decide (1 < href.length) &&
  decide (href ∉ seen)

/-- One iteration of the fallback scan: seen_paths and the category list
grow together. -/
def fallbackStep (p : List String × List (String × String)) (lk : Link) :
    List String × List (String × String) :=
  if fallbackFilter p.1 lk.href then
    (lk.href :: p.1, p.2 ++ [(lk.href, navLinkName lk)])
  else p

/-- The fallback all-links branch of new-style discovery, deduplicating by
href through seen_paths. -/
def fallbackCategories (allLinks : List Link) : List (String × String) :=
  (allLinks.foldl fallbackStep ([], [])).2

/-- Category extraction for a new-style root page: the nav-menu categories
when any were found, else the fallback scan over all links. -/
def newStyleCategories (navs : List (List Link)) (allLinks : List Link) :
    List (String × String) :=
  let cats := navCategories navs
  if cats = [] then fallbackCategories allLinks else cats

/-- Concrete nav menu holding the same category path twice. -/
def navsDupW : List (List Link) :=
  [[{ href := "/city-council", text := "Council" },
    { href := "/city-council", text := "Council" }]]

/-- Claim C8 (counterexample): the nav-menu branch of discovery performs no
dedup, so a nav holding two links to the same path produces that category
path twice in the category list. -/
theorem discover_categories_counterexample :
    (newStyleCategories navsDupW []).map Prod.fst =
      ["/city-council", "/city-council"] ∧
    ¬ ((newStyleCategories navsDupW []).map Prod.fst).Nodup := by
  constructor
  · decide
  · decide

theorem fallbackFold_inv (links : List Link) :
    ∀ p : List String × List (String × String),
      (p.2.map Prod.fst).Nodup → (∀ h ∈ p.2.map Prod.fst, h ∈ p.1) →
      (((links.foldl fallbackStep p).2.map Prod.fst).Nodup ∧
        ∀ h ∈ (links.foldl fallbackStep p).2.map Prod.fst,
          h ∈ (links.foldl fallbackStep p).1) := by
  induction links with
  | nil => intro p h1 h2; exact ⟨h1, h2⟩
  | cons lk ls ih =>
    intro p h1 h2
    rw [List.foldl_cons]
    by_cases hf : fallbackFilter p.1 lk.href = true
    · have hstep : fallbackStep p lk =
          (lk.href :: p.1, p.2 ++ [(lk.href, navLinkName lk)]) := by
        simp [fallbackStep, hf]
      rw [hstep]
      have hnotin : lk.href ∉ p.1 := by
        have := hf
        simp [fallbackFilter] at this
        tauto
      apply ih
      · rw [List.map_append, List.nodup_append]
        refine ⟨h1, by simp, ?_⟩
        intro a ha hb
        simp at hb
        subst hb
        exact hnotin (h2 _ ha)
      · intro h hh
        rw [List.map_append] at hh
        rcases List.mem_append.1 hh with hh | hh
        · exact List.mem_cons_of_mem _ (h2 h hh)
        · simp at hh
          simp [hh]
    · have hstep : fallbackStep p lk = p := by
        simp [fallbackStep, hf]
      rw [hstep]
      exact ih p h1 h2

/-- Claim C8 (amended): only the fallback all-links branch of new-style
discovery deduplicates category links by path (the nav-menu branch and the
old-style tab extraction append every matching link, so a path may repeat);
the fallback list is used exactly when the nav-menu branch found nothing;
and in the new-style branches a category link with empty visible text
receives the display name derived from its path segment (hyphens to spaces,
title-cased) whenever that derivation is non-empty. -/
theorem discover_categories_dedup_and_names :
    (∀ allLinks : List Link, ((fallbackCategories allLinks).map Prod.fst).Nodup) ∧
    (∀ (navs : List (List Link)) (allLinks : List Link), navCategories navs = [] →
      newStyleCategories navs allLinks = fallbackCategories allLinks) ∧
    (∀ lk : Link, lk.text = "" → startsWithStr lk.href "/" = true →
      deriveNameFromPath lk.href ≠ "" →
      navLinkName lk = deriveNameFromPath lk.href) := by
  refine ⟨?_, ?_, ?_⟩
  · intro allLinks
    exact (fallbackFold_inv allLinks ([], []) (by simp) (by simp)).1
  · intro navs allLinks h
    simp [newStyleCategories, h]
  · intro lk htext hslash hne
    simp [navLinkName, htext, hslash, hne]

/-- Concrete category link with empty visible text. -/
def emptyTextLinkW : Link := { href := "/city-council", text := "" }

theorem discover_categories_dedup_and_names_witness :
    (emptyTextLinkW.text = "" ∧ startsWithStr emptyTextLinkW.href "/" = true ∧
      deriveNameFromPath emptyTextLinkW.href ≠ "" ∧
      navLinkName emptyTextLinkW = deriveNameFromPath emptyTextLinkW.href) ∧
    deriveNameFromPath "/city-council" = "City Council" :=
  ⟨⟨rfl, rfl, by decide,
    discover_categories_dedup_and_names.2.2 emptyTextLinkW rfl rfl (by decide)⟩,
   by decide⟩

/-- The sort key of enrich_missing_hls: r.video_date or date.min, with
date.min as 0 in the Nat abstraction of dates. -/
def dateKey (r : VideoRecord) : Nat := r.video_date.getD 0

/-- The stable descending-by-date sort of enrich_missing_hls (Python
list.sort with reverse=True is stable; insertionSort with this relation is
the same stable sort). -/
def sortByDateDesc (l : List VideoRecord) : List VideoRecord :=
  List.insertionSort (fun a b => dateKey b ≤ dateKey a) l

/-- Python truthiness of an Optional[str]: None and the empty string are
falsy. -/
def truthyOpt (o : Option String) : Bool :=
  match o with
  | none => false
  | some s => !(s == "")

/-- The SET clause of the enrichment UPDATE: hls_url and video_uuid each
COALESCE the found value with the stored one; no other column appears. -/
def enrichUpdateRow (hls uuid : Option String) (row : VideoRow) : VideoRow :=
  { row with hls_url := coalesce hls row.hls_url,
             video_uuid := coalesce uuid row.video_uuid }

/-- One iteration of the enrichment loop over the store: when either found
value is truthy, the UPDATE runs against the rows matching (slug, video_id);
otherwise no statement is executed. -/
def enrichStep (slug : String) (oracle : Nat → Option String × Option String)
    (store : List VideoRow) (r : VideoRecord) : List VideoRow :=
  let res := oracle r.video_id
  if truthyOpt res.1 || truthyOpt res.2 then
    store.map (fun row =>
      if keyMatches slug r.video_id row then enrichUpdateRow res.1 res.2 row else row)
  else store

/-- The records enrich_missing_hls iterates over: those of the crawl whose
id was absent from the pre-crawl store snapshot, date-descending, capped. -/
def enrichProcessed (records : List VideoRecord) (existing : List Nat)
    (limit : Nat) : List VideoRecord :=
  (sortByDateDesc (records.filter (fun r => decide (r.video_id ∉ existing)))).take limit

/-- enrich_missing_hls: filter to new records, sort date-descending, cap at
the limit (20 at the call site), and run the per-record UPDATE loop. -/
def enrich_missing_hls (slug : String) (store : List VideoRow)
    (records : List VideoRecord) (existing : List Nat)
    (oracle : Nat → Option String × Option String) (limit : Nat) : List VideoRow :=
  (enrichProcessed records existing limit).foldl (enrichStep slug oracle) store

/-- The cumulative effect of the enrichment loop on a single stored row. -/
def enrichRowStep (slug : String) (oracle : Nat → Option String × Option String)
    (row : VideoRow) (r : VideoRecord) : VideoRow :=
  let res := oracle r.video_id
  if (truthyOpt res.1 || truthyOpt res.2) && keyMatches slug r.video_id row then
    enrichUpdateRow res.1 res.2 row
  else row

def enrichRow (slug : String) (oracle : Nat → Option String × Option String)
    (row : VideoRow) (procs : List VideoRecord) : VideoRow :=
  procs.foldl (enrichRowStep slug oracle) row

theorem enrich_eq_map (slug : String) (oracle : Nat → Option String × Option String) :
    ∀ (procs : List VideoRecord) (store : List VideoRow),
      procs.foldl (enrichStep slug oracle) store =
        store.map (fun row => enrichRow slug oracle row procs) := by
  intro procs
  induction procs with
  | nil =>
    intro store
    exact ((List.map_congr_left (fun a _ => rfl)).trans (List.map_id store)).symm
  | cons r rs ih =>
    intro store
    rw [List.foldl_cons]
    by_cases ht : (truthyOpt (oracle r.video_id).1 || truthyOpt (oracle r.video_id).2) = true
    · have hstep : enrichStep slug oracle store r = store.map (fun row =>
          if keyMatches slug r.video_id row then
            enrichUpdateRow (oracle r.video_id).1 (oracle r.video_id).2 row else row) := by
        simp [enrichStep, ht]
      rw [hstep, ih, List.map_map]
      apply List.map_congr_left
      intro row _
      show enrichRow slug oracle (if keyMatches slug r.video_id row then
          enrichUpdateRow (oracle r.video_id).1 (oracle r.video_id).2 row else row) rs =
        enrichRow slug oracle row (r :: rs)
      have hdef : enrichRow slug oracle row (r :: rs) =
          enrichRow slug oracle (enrichRowStep slug oracle row r) rs := rfl
      rw [hdef]
      congr 1
      simp [enrichRowStep, ht]
    · have hstep : enrichStep slug oracle store r = store := by
        simp [enrichStep, ht]
      rw [hstep, ih]
      apply List.map_congr_left
      intro row _
      have hfalse : (truthyOpt (oracle r.video_id).1 ||
          truthyOpt (oracle r.video_id).2) = false := by
        revert ht
        cases truthyOpt (oracle r.video_id).1 || truthyOpt (oracle r.video_id).2 <;> simp
      show enrichRow slug oracle row rs = enrichRow slug oracle row (r :: rs)
      have hdef : enrichRow slug oracle row (r :: rs) =
          enrichRow slug oracle (enrichRowStep slug oracle row r) rs := rfl
      rw [hdef]
      congr 1
      simp [enrichRowStep, hfalse]

theorem enrichRow_frame (slug : String) (oracle : Nat → Option String × Option String) :
    ∀ (procs : List VideoRecord) (row : VideoRow),
      (enrichRow slug oracle row procs).city_slug = row.city_slug ∧
      (enrichRow slug oracle row procs).video_id = row.video_id ∧
      (enrichRow slug oracle row procs).title = row.title ∧
      (enrichRow slug oracle row procs).video_date = row.video_date ∧
      (enrichRow slug oracle row procs).duration = row.duration ∧
      (enrichRow slug oracle row procs).download_url = row.download_url ∧
      (enrichRow slug oracle row procs).agenda_url = row.agenda_url ∧
      (enrichRow slug oracle row procs).data = row.data := by
  intro procs
  induction procs with
  | nil => intro row; exact ⟨rfl, rfl, rfl, rfl, rfl, rfl, rfl, rfl⟩
  | cons r rs ih =>
    intro row
    have hdef : enrichRow slug oracle row (r :: rs) =
        enrichRow slug oracle (enrichRowStep slug oracle row r) rs := rfl
    rw [hdef]
    have hstep : (enrichRowStep slug oracle row r).city_slug = row.city_slug ∧
        (enrichRowStep slug oracle row r).video_id = row.video_id ∧
        (enrichRowStep slug oracle row r).title = row.title ∧
        (enrichRowStep slug oracle row r).video_date = row.video_date ∧
        (enrichRowStep slug oracle row r).duration = row.duration ∧
        (enrichRowStep slug oracle row r).download_url = row.download_url ∧
        (enrichRowStep slug oracle row r).agenda_url = row.agenda_url ∧
        (enrichRowStep slug oracle row r).data = row.data := by
      by_cases h : ((truthyOpt (oracle r.video_id).1 || truthyOpt (oracle r.video_id).2) &&
          keyMatches slug r.video_id row) = true
      · simp [enrichRowStep, h, enrichUpdateRow]
      · simp [enrichRowStep, h]
    have hrest := ih (enrichRowStep slug oracle row r)
    exact ⟨hrest.1.trans hstep.1, hrest.2.1.trans hstep.2.1,
      hrest.2.2.1.trans hstep.2.2.1, hrest.2.2.2.1.trans hstep.2.2.2.1,
      hrest.2.2.2.2.1.trans hstep.2.2.2.2.1,
      hrest.2.2.2.2.2.1.trans hstep.2.2.2.2.2.1,
      hrest.2.2.2.2.2.2.1.trans hstep.2.2.2.2.2.2.1,
      hrest.2.2.2.2.2.2.2.trans hstep.2.2.2.2.2.2.2⟩

theorem enrichRow_sets_only_some (slug : String)
    (oracle : Nat → Option String × Option String) :
    ∀ (procs : List VideoRecord) (row : VideoRow),
      ((enrichRow slug oracle row procs).hls_url = row.hls_url ∨
        ∃ v, (enrichRow slug oracle row procs).hls_url = some v) ∧
      ((enrichRow slug oracle row procs).video_uuid = row.video_uuid ∨
        ∃ v, (enrichRow slug oracle row procs).video_uuid = some v) := by
  intro procs
  induction procs with
  | nil => intro row; exact ⟨Or.inl rfl, Or.inl rfl⟩
  | cons r rs ih =>
    intro row
    have hdef : enrichRow slug oracle row (r :: rs) =
        enrichRow slug oracle (enrichRowStep slug oracle row r) rs := rfl
    rw [hdef]
    have hstep : ((enrichRowStep slug oracle row r).hls_url = row.hls_url ∨
        ∃ v, (enrichRowStep slug oracle row r).hls_url = some v) ∧
        ((enrichRowStep slug oracle row r).video_uuid = row.video_uuid ∨
          ∃ v, (enrichRowStep slug oracle row r).video_uuid = some v) := by
      by_cases h : ((truthyOpt (oracle r.video_id).1 || truthyOpt (oracle r.video_id).2) &&
          keyMatches slug r.video_id row) = true
      · have hstep_eq : enrichRowStep slug oracle row r =
            enrichUpdateRow (oracle r.video_id).1 (oracle r.video_id).2 row := by
          simp [enrichRowStep, h]
        rw [hstep_eq]
        constructor
        · cases hh : (oracle r.video_id).1 with
          | none => left; simp [enrichUpdateRow, hh, coalesce]
          | some v => right; exact ⟨v, by simp [enrichUpdateRow, hh, coalesce]⟩
        · cases hh : (oracle r.video_id).2 with
          | none => left; simp [enrichUpdateRow, hh, coalesce]
          | some v => right; exact ⟨v, by simp [enrichUpdateRow, hh, coalesce]⟩
      · constructor <;> (left; simp [enrichRowStep, h])
    have hrest := ih (enrichRowStep slug oracle row r)
    constructor
    · rcases hrest.1 with hres | ⟨v, hv⟩
      · rcases hstep.1 with hs | ⟨v, hv⟩
        · exact Or.inl (hres.trans hs)
        · exact Or.inr ⟨v, hres.trans hv⟩
      · exact Or.inr ⟨v, hv⟩
    · rcases hrest.2 with hres | ⟨v, hv⟩
      · rcases hstep.2 with hs | ⟨v, hv⟩
        · exact Or.inl (hres.trans hs)
        · exact Or.inr ⟨v, hres.trans hv⟩
      · exact Or.inr ⟨v, hv⟩

theorem enrichRow_no_match (slug : String)
    (oracle : Nat → Option String × Option String) :
    ∀ (procs : List VideoRecord) (row : VideoRow),
      (∀ r ∈ procs, keyMatches slug r.video_id row = false) →
      enrichRow slug oracle row procs = row := by
  intro procs
  induction procs with
  | nil => intro row _; rfl
  | cons r rs ih =>
    intro row h
    have hdef : enrichRow slug oracle row (r :: rs) =
        enrichRow slug oracle (enrichRowStep slug oracle row r) rs := rfl
    have hkey := h r (List.mem_cons_self r rs)
    have hstep : enrichRowStep slug oracle row r = row := by
      simp [enrichRowStep, hkey]
    rw [hdef, hstep]
    exact ih row (fun r2 hr2 => h r2 (List.mem_cons_of_mem r hr2))

theorem enrichRow_no_pattern (slug : String)
    (oracle : Nat → Option String × Option String) :
    ∀ (procs : List VideoRecord) (row : VideoRow),
      (∀ r ∈ procs, truthyOpt (oracle r.video_id).1 = false ∧
        truthyOpt (oracle r.video_id).2 = false) →
      enrichRow slug oracle row procs = row := by
  intro procs
  induction procs with
  | nil => intro row _; rfl
  | cons r rs ih =>
    intro row h
    have hdef : enrichRow slug oracle row (r :: rs) =
        enrichRow slug oracle (enrichRowStep slug oracle row r) rs := rfl
    have hpat := h r (List.mem_cons_self r rs)
    have hstep : enrichRowStep slug oracle row r = row := by
      simp [enrichRowStep, hpat.1, hpat.2]
    rw [hdef, hstep]
    exact ih row (fun r2 hr2 => h r2 (List.mem_cons_of_mem r hr2))

/-- Claim C9: enrich_missing_hls processes only records of the crawl whose
ids were absent from the pre-crawl store snapshot, ordered date-descending
and capped at the limit (20 at the call site); on every stored row it can
change only hls_url and video_uuid, each only to a non-null found value, a
row matching no processed record is untouched, and when no detail page
yields a recognizable pattern the whole store is left unchanged. -/
theorem enrich_missing_hls_spec (slug : String) (store : List VideoRow)
    (records : List VideoRecord) (existing : List Nat)
    (oracle : Nat → Option String × Option String) (limit : Nat) :
    (enrichProcessed records existing limit).length ≤ limit ∧
    (∀ r ∈ enrichProcessed records existing limit,
      r ∈ records ∧ r.video_id ∉ existing) ∧
    List.Pairwise (fun a b => dateKey b ≤ dateKey a)
      (enrichProcessed records existing limit) ∧
    enrich_missing_hls slug store records existing oracle limit =
      store.map (fun row =>
        enrichRow slug oracle row (enrichProcessed records existing limit)) ∧
    (∀ (procs : List VideoRecord) (row : VideoRow),
      (enrichRow slug oracle row procs).title = row.title ∧
      (enrichRow slug oracle row procs).video_date = row.video_date ∧
      (enrichRow slug oracle row procs).duration = row.duration ∧
      (enrichRow slug oracle row procs).download_url = row.download_url ∧
      (enrichRow slug oracle row procs).agenda_url = row.agenda_url ∧
      (enrichRow slug oracle row procs).data = row.data) ∧
    (∀ (procs : List VideoRecord) (row : VideoRow),
      ((enrichRow slug oracle row procs).hls_url = row.hls_url ∨
        ∃ v, (enrichRow slug oracle row procs).hls_url = some v) ∧
      ((enrichRow slug oracle row procs).video_uuid = row.video_uuid ∨
        ∃ v, (enrichRow slug oracle row procs).video_uuid = some v)) ∧
    (∀ (procs : List VideoRecord) (row : VideoRow),
      (∀ r ∈ procs, keyMatches slug r.video_id row = false) →
      enrichRow slug oracle row procs = row) ∧
    ((∀ r ∈ enrichProcessed records existing limit,
        truthyOpt (oracle r.video_id).1 = false ∧
        truthyOpt (oracle r.video_id).2 = false) →
      enrich_missing_hls slug store records existing oracle limit = store) := by
  haveI instTotal : IsTotal VideoRecord (fun a b => dateKey b ≤ dateKey a) :=
    ⟨fun a b => Nat.le_total (dateKey b) (dateKey a)⟩
  haveI instTrans : IsTrans VideoRecord (fun a b => dateKey b ≤ dateKey a) :=
    ⟨fun a b c hab hbc => Nat.le_trans hbc hab⟩
  refine ⟨?_, ?_, ?_, ?_, ?_, ?_, ?_, ?_⟩
  · exact List.length_take_le limit _
  · intro r hr
    have hmemSorted : r ∈ sortByDateDesc
        (records.filter (fun r => decide (r.video_id ∉ existing))) :=
      (List.take_sublist limit _).subset hr
    have hmemFilter : r ∈ records.filter (fun r => decide (r.video_id ∉ existing)) :=
      (List.perm_insertionSort (fun a b => dateKey b ≤ dateKey a) _).mem_iff.1 hmemSorted
    have := List.mem_filter.1 hmemFilter
    exact ⟨this.1, of_decide_eq_true this.2⟩
  · have hsorted := List.sorted_insertionSort (fun a b => dateKey b ≤ dateKey a)
      (records.filter (fun r => decide (r.video_id ∉ existing)))
    exact List.Pairwise.sublist (List.take_sublist limit _) hsorted
  · exact enrich_eq_map slug oracle _ store
  · intro procs row
    have := enrichRow_frame slug oracle procs row
    exact ⟨this.2.2.1, this.2.2.2.1, this.2.2.2.2.1, this.2.2.2.2.2.1,
      this.2.2.2.2.2.2.1, this.2.2.2.2.2.2.2⟩
  · exact enrichRow_sets_only_some slug oracle
  · exact enrichRow_no_match slug oracle
  · intro h
    show (enrichProcessed records existing limit).foldl (enrichStep slug oracle) store = store
    rw [enrich_eq_map slug oracle _ store]
    calc store.map (fun row =>
          enrichRow slug oracle row (enrichProcessed records existing limit))
        = store.map id := List.map_congr_left
          (fun row _ => enrichRow_no_pattern slug oracle _ row h)
      _ = store := List.map_id store

/-- Concrete enrichment oracle that finds no streaming pattern on any detail
page. -/
def oracleNoPattern : Nat → Option String × Option String := fun _ => (none, none)

theorem enrich_missing_hls_spec_witness :
    (∀ r ∈ enrichProcessed [recW] [] 20,
      truthyOpt (oracleNoPattern r.video_id).1 = false ∧
      truthyOpt (oracleNoPattern r.video_id).2 = false) ∧
    enrich_missing_hls "austintx" [rowW] [recW] [] oracleNoPattern 20 = [rowW] :=
  ⟨fun _ _ => ⟨rfl, rfl⟩,
   (enrich_missing_hls_spec "austintx" [rowW] [recW] [] oracleNoPattern 20).2.2.2.2.2.2.2
     (fun _ _ => ⟨rfl, rfl⟩)⟩

/-- One table cell as the extractor observes it: stripped full text, whether
it contains a br element, the stripped text following the first br (when
present and non-empty at the sibling), and the first non-blank stripped
string child before the br. -/
structure Cell where
  text : String
  hasBr : Bool
  afterBr : Option String
  preBr : Option String
deriving Repr, DecidableEq

/-- One table row as the extractor observes it: the first video-detail link
(id and stripped text) when one matches the videos pattern, the td cells,
and the href of the first agenda link if any. -/
structure RowModel where
  videoLink : Option (Nat × String)
  tds : List Cell
  agendaHref : Option String
deriving Repr, DecidableEq

/-- Python str.endswith via character lists. -/
def endsWithStr (s suffix : String) : Bool :=
  suffix.toList.isSuffixOf s.toList

/-- The title branch of extract_videos_from_html: first cell text in the
three-column legacy layout, the link text otherwise. -/
def titleOf (linkText : String) (tds : List Cell) : String :=
  match tds with
  | _ :: _ :: _ :: _ => (tds.headD { text := "", hasBr := false, afterBr := none, preBr := none }).text
  | _ => linkText

/-- The date-string branch: second cell text in the legacy layout, the text
after the br of the first cell in the new-style layout, empty otherwise. -/
def dateStrOf (tds : List Cell) : String :=
  match tds with
  | _ :: c1 :: _ :: _ => c1.text
  | c0 :: _ => (c0.afterBr).getD ""
  | [] => ""

/-- The duration branch: third cell text in the legacy layout; in the
new-style layout the first string child before the br of the second cell,
or, without a br, the cell text unless empty or an item-count label; empty
when no duration text is found. -/
def durationOf (tds : List Cell) : String :=
  match tds with
  | _ :: _ :: c2 :: _ => c2.text
  | _ :: c1 :: _ =>
    if c1.hasBr then (c1.preBr).getD ""
    else if c1.text ≠ "" && !endsWithStr c1.text "items" then c1.text else ""
  | _ => ""

/-- Agenda link normalization: absolute hrefs pass through, others are
prefixed with the site host. -/
def agendaUrlOf (slug : String) (agendaHref : Option String) : Option String :=
  match agendaHref with
  | none => none
  | some href =>
    if startsWithStr href "http" then some href
    else some ("https://" ++ slug ++ ".new.swagit.com" ++ href)

/-- Python string slicing s[:n] by characters. -/
def strTake (s : String) (n : Nat) : String := String.mk (s.toList.take n)

/-- The VideoRecord built for one qualifying row; parse_date is abstracted
by the parseD oracle and a failed or absent date string yields none. -/
def recordOfRow (parseD : String → Option Nat) (slug : String)
    (vid : Nat) (linkText : String) (row : RowModel) : VideoRecord :=
  let title := titleOf linkText row.tds
  let dateStr := dateStrOf row.tds
  let duration := durationOf row.tds
  let video_date := if dateStr = "" then none else parseD dateStr
  { city_slug := slug
    video_id := vid
    title := strTake title 500
    video_date := video_date
    duration := duration
    video_uuid := none
    hls_url := none
    download_url := some ("https://" ++ slug ++ ".new.swagit.com/videos/" ++
      toString vid ++ "/download")
    agenda_url := agendaUrlOf slug row.agendaHref
    data := { video_id := vid, title := strTake title 500,
              date := video_date.map (fun d => toString d), duration := duration } }

/-- extract_videos_from_html over the rows of all tables of a page: rows
without a video-detail link are skipped, duplicate video ids within the page
are suppressed keeping the first occurrence. -/
def extract_videos_from_html (parseD : String → Option Nat) (slug : String)
    (page : List RowModel) : List VideoRecord :=
  (page.foldl (fun (p : List Nat × List VideoRecord) row =>
    match row.videoLink with
    | none => p
    | some (vid, linkText) =>
      if vid ∈ p.1 then p
      else (vid :: p.1, p.2 ++ [recordOfRow parseD slug vid linkText row])) ([], [])).2

/-- Row with no duration text anywhere: single cell, no br. -/
def rowNoDurW : RowModel :=
  { videoLink := some (7, "Budget Meeting"),
    tds := [{ text := "Budget Meeting", hasBr := false, afterBr := none, preBr := none }],
    agendaHref := none }

/-- Claim C10: every record the extractor produces carries a plain-string
duration (empty when no duration text is found), so the upsert merge always
takes the incoming duration and never retains the stored one; concretely, a
row with no duration text produces duration empty-string, and upserting it
over a stored row with duration 1:00:00 leaves the stored duration as the
empty string. -/
theorem extractor_duration_always_overwrites :
    (∀ (parseD : String → Option Nat) (slug : String) (page : List RowModel),
      ∀ r ∈ extract_videos_from_html parseD slug page, ∀ old : VideoRow,
        (mergeRow old (recToValues r)).duration = some r.duration) ∧
    ((extract_videos_from_html (fun _ => none) "austintx" [rowNoDurW]).map
        (fun r => r.duration) = [""] ∧
      rowW.duration = some "1:00:00" ∧
      (mergeRow rowW (recToValues
        ((extract_videos_from_html (fun _ => none) "austintx" [rowNoDurW]).headD
          recW))).duration = some "") := by
  refine ⟨?_, ?_, rfl, ?_⟩
  · intro parseD slug page r _ old
    rfl
  · decide
  · decide

set_option maxRecDepth 4096 in
theorem extractor_duration_always_overwrites_witness :
    recordOfRow (fun _ => none) "austintx" 7 "Budget Meeting" rowNoDurW ∈
      extract_videos_from_html (fun _ => none) "austintx" [rowNoDurW] ∧
    (mergeRow rowW (recToValues (recordOfRow (fun _ => none) "austintx" 7
      "Budget Meeting" rowNoDurW))).duration =
      some (recordOfRow (fun _ => none) "austintx" 7 "Budget Meeting" rowNoDurW).duration :=
  ⟨by decide,
   extractor_duration_always_overwrites.1 (fun _ => none) "austintx" [rowNoDurW]
     (recordOfRow (fun _ => none) "austintx" 7 "Budget Meeting" rowNoDurW)
     (by decide) rowW⟩
